import Mathlib

/-!
Verification development for the teams-channel-picker component
(src/packages/mgt-components/src/components/mgt-teams-channel-picker/mgt-teams-channel-picker.ts).

Shallow embedding conventions:
* JavaScript strings are modelled as lists of UTF-16 code units (`List Nat`).
  All concrete strings appearing in this development are ASCII, where code
  units and code points coincide; `jsStr` converts a Lean string literal.
* `String.prototype.toLowerCase` is modelled per code unit on the ASCII
  range (`lowerNat`), which agrees with JavaScript on every ASCII string.
* The optional `channels?: DropdownItem[]` field is modelled by separate
  forest constructors: `leafCons` is an array element whose `channels`
  field is `undefined`, `teamCons` one whose `channels` field is an array
  (possibly empty; an empty array is truthy in JavaScript, `undefined` is
  falsy, and the two constructors keep that distinction).
* A thrown `TypeError` (iterating `undefined`, reading a property of
  `null`) is modelled by `Except.error ()`.
* The `parent` back-reference of a `ChannelPickerItemState` is modelled by
  the parent's `item` value: the source only ever reads `parent.item`
  (in `selectedItem` and in `renderInput`), never any other field.
-/

/-- Code units of an ASCII Lean string literal, as the model of a JavaScript string. -/
def jsStr (s : String) : List Nat :=
  s.toList.map Char.toNat

/-- Model of `String.prototype.toLowerCase` on one ASCII code unit. -/
def lowerNat (n : Nat) : Nat :=
  if 65 ≤ n ∧ n ≤ 90 then n + 32 else n

/-- Model of `String.prototype.toLowerCase`. -/
def lowerStr (s : List Nat) : List Nat :=
  s.map lowerNat

/-- Boolean test that `sub` is a prefix of `s` (helper for `strContains` and `indexOfStr`). -/
def prefixAt : List Nat → List Nat → Bool
  | _, [] => true
  | [], _ :: _ => false
  | a :: s, b :: sub => a == b && prefixAt s sub

/-- Model of `String.prototype.includes`: `strContains s sub` is `s.includes(sub)`. -/
def strContains : List Nat → List Nat → Bool
  | [], sub => prefixAt [] sub
  | a :: s, sub => prefixAt (a :: s) sub || strContains s sub

/-- Model of `String.prototype.indexOf`: the least index at which `sub` occurs in `s`
    (`none` models the return value `-1`). -/
def indexOfStr : List Nat → List Nat → Option Nat
  | [], sub => if prefixAt [] sub then some 0 else none
  | a :: s, sub =>
    if prefixAt (a :: s) sub then some 0
    else (indexOfStr s sub).map (fun i => i + 1)

/-- Model of `String.prototype.slice(a, b)` for `0 ≤ a ≤ b ≤ s.length`,
    the only way the source calls it. -/
def jsSlice (s : List Nat) (a b : Nat) : List Nat :=
  (s.take b).drop a

/-- A Microsoft Graph `Team` or `Channel` as used by the picker: the source
    reads only `id` and `displayName` of these objects. -/
structure GraphItem where
  id : List Nat
  displayName : List Nat
deriving DecidableEq

/-- A `DropdownItem[]` array (the raw loaded source tree).
    `nil` is the empty array; `leafCons item rest` is an element
    `{ item }` with no `channels` field (`undefined`), as `loadState`
    produces for a team whose channel request returned no content and for
    every channel entry; `teamCons item channels rest` is an element
    `{ item, channels }` whose `channels` field is an array. -/
inductive DropForest : Type where
  | nil : DropForest
  | leafCons (item : GraphItem) (rest : DropForest) : DropForest
  | teamCons (item : GraphItem) (channels : DropForest) (rest : DropForest) : DropForest
deriving DecidableEq

/-- A `ChannelPickerItemState[]` array (the derived presentation tree).
    `leafCons item parent rest`: an element with no `channels` field
    (its optional `isExpanded` field is never set on such elements).
    `teamCons item parent isExpanded channels rest`: an element carrying a
    `channels` array.  The `parent` back-reference stores the parent's
    `item` (see the header comment). -/
inductive StateForest : Type where
  | nil : StateForest
  | leafCons (item : GraphItem) (parent : Option GraphItem) (rest : StateForest) : StateForest
  | teamCons (item : GraphItem) (parent : Option GraphItem) (isExpanded : Bool)
      (channels : StateForest) (rest : StateForest) : StateForest
deriving DecidableEq

/-- The `length` of a `ChannelPickerItemState[]` array (number of top-level elements). -/
def StateForest.length : StateForest → Nat
  | .nil => 0
  | .leafCons _ _ rest => rest.length + 1
  | .teamCons _ _ _ _ rest => rest.length + 1

/-- One `ChannelPickerItemState` object, as handed around by value: the
    focus list elements, the selected item and the argument of
    `selectChannel` have this shape.  `channels = none` models an absent
    `channels` field; a missing `isExpanded` field is modelled as `false`
    (the source only uses the field in boolean positions, where
    `undefined` and `false` agree). -/
structure ItemState where
  item : GraphItem
  parent : Option GraphItem
  isExpanded : Bool
  channels : Option StateForest
deriving DecidableEq

/-- The elements of a `ChannelPickerItemState[]` array, as `ItemState` values, in order. -/
def roots : StateForest → List ItemState
  | .nil => []
  | .leafCons it p rest => ⟨it, p, false, none⟩ :: roots rest
  | .teamCons it p e chs rest => ⟨it, p, e, some chs⟩ :: roots rest

/-- Model of `generateTreeViewState(tree, filterString, parent)` (source lines 759-793).
    The source lowercases `filterString` on entry; a node is kept when the
    filter is empty or its own lowercased `displayName` contains the
    filter; a kept node with a `channels` array gets its channels rebuilt
    with the empty filter and `isExpanded = filterString.length > 0`; a
    non-matching node with a `channels` array is kept exactly when
    rebuilding its channels with the same (already lowercased) filter is
    non-empty, and is then marked `isExpanded = true`; all other
    non-matching nodes are dropped. -/
def generateTreeViewState : DropForest → List Nat → Option GraphItem → StateForest
  | .nil, _, _ => .nil
  | .leafCons it rest, filterString, parent =>
    if (lowerStr filterString).length = 0 ∨
        strContains (lowerStr it.displayName) (lowerStr filterString) = true then
      .leafCons it parent (generateTreeViewState rest filterString parent)
    else
      generateTreeViewState rest filterString parent
  | .teamCons it chs rest, filterString, parent =>
    if (lowerStr filterString).length = 0 ∨
        strContains (lowerStr it.displayName) (lowerStr filterString) = true then
      .teamCons it parent (decide (0 < (lowerStr filterString).length))
        (generateTreeViewState chs [] (some it))
        (generateTreeViewState rest filterString parent)
    else
      if 0 < (generateTreeViewState chs (lowerStr filterString) (some it)).length then
        .teamCons it parent true (generateTreeViewState chs (lowerStr filterString) (some it))
          (generateTreeViewState rest filterString parent)
      else
        generateTreeViewState rest filterString parent

/-- Model of `generateFocusList(items)` (source lines 797-812): push each
    element, and append the flattened `channels` exactly when the element
    has a `channels` array (`item.channels` is truthy, which holds for the
    empty array too) and `isExpanded` is true. -/
def generateFocusList : StateForest → List ItemState
  | .nil => []
  | .leafCons it p rest => ⟨it, p, false, none⟩ :: generateFocusList rest
  | .teamCons it p e chs rest =>
    ⟨it, p, e, some chs⟩ :: ((if e then generateFocusList chs else []) ++ generateFocusList rest)

/-- The externally reported selection pair `{ channel, team }` (`SelectedChannel`). -/
structure SelectedChannel where
  channel : GraphItem
  team : GraphItem
deriving DecidableEq

/-- The mutable fields of `MgtTeamsChannelPicker` that the modelled
    operations read or write.  `items = none` models `this._items` being
    `undefined` (nothing loaded); `focusedIndex` is a JavaScript number
    holding `-1` or a list index, hence `Int`. -/
structure PickerState where
  selectedItemState : Option ItemState
  inputValue : List Nat
  isFocused : Bool
  isDropdownVisible : Bool
  items : Option DropForest
  treeViewState : StateForest
  focusedIndex : Int
  focusList : List ItemState
deriving DecidableEq

/-- Model of the `selectedItem` getter (source lines 205-211): if an item
    state is set, return `{ channel: state.item, team: state.parent.item }`.
    Reading `parent.item` of a `null` parent throws (`Except.error`). -/
def selectedItemE : Option ItemState → Except Unit (Option SelectedChannel)
  | none => Except.ok none
  | some s =>
    match s.parent with
    | none => Except.error ()
    | some p => Except.ok (some ⟨s.item, p⟩)

/-- Model of `filterList()` (source lines 751-757): when items are loaded,
    rebuild `_treeViewState` from them and the current `_inputValue`,
    reset `_focusedIndex` to `-1` and recompute the focus list
    (`resetFocusState`, whose `requestUpdate()` is view-only). -/
def filterList (st : PickerState) : PickerState :=
  match st.items with
  | none => st
  | some its =>
    let tvs := generateTreeViewState its st.inputValue none
    { st with treeViewState := tvs, focusedIndex := -1, focusList := generateFocusList tvs }

/-- Model of `lostFocus()` (source lines 912-921).  The rendered
    `fluent-text-field` is assumed present, so the `input &&` guard holds;
    evaluating `!this.selectedItem` goes through the `selectedItem`
    getter, which can throw.  The source's sequential writes (clear
    `_isFocused`, conditionally clear the input text, hide the dropdown,
    then `filterList()`) are combined into one record update per branch:
    none of the intermediate values is read in between. -/
def lostFocus (st : PickerState) : Except Unit PickerState :=
  match selectedItemE st.selectedItemState with
  | Except.error e => Except.error e
  | Except.ok sel =>
    if sel.isNone then
      Except.ok (filterList
        { st with isFocused := false, inputValue := [], isDropdownVisible := false })
    else
      Except.ok (filterList { st with isFocused := false, isDropdownVisible := false })

/-- Tail of `selectChannel` after the conditional event dispatch: clear the
    input text (`input.value = this._inputValue = ''`; the input element is
    assumed rendered), `requestUpdate()` (view-only), then `lostFocus()`.
    The first component carries the event detail of a `selectionChanged`
    event fired earlier, `none` when no event was fired. -/
def selectChannelFinish (st : PickerState) (ev : Option (List SelectedChannel)) :
    Option (List SelectedChannel) × Except Unit PickerState :=
  let st' := { st with inputValue := [] }
  (ev, lostFocus st')

/-- Model of `selectChannel(item)` (source lines 923-935).  When the new
    item differs from `_selectedItemState` (the source compares with
    `!==`; distinct state values model distinct objects), the selection is
    replaced and a `selectionChanged` event fires with detail
    `item ? [this.selectedItem] : []`; evaluating `this.selectedItem` for
    an item whose `parent` is `null` throws before the event fires. -/
def selectChannel (st : PickerState) (item : Option ItemState) :
    Option (List SelectedChannel) × Except Unit PickerState :=
  if st.selectedItemState ≠ item then
    match item with
    | none => selectChannelFinish { st with selectedItemState := none } (some [])
    | some s =>
      match s.parent with
      | none => (none, Except.error ())
      | some p =>
        selectChannelFinish { st with selectedItemState := some s }
          (some [SelectedChannel.mk s.item p])
  else
    selectChannelFinish st none

/-- The inner loop of `selectChannelById`: scan one `channels` array for
    the first element with `channel.item.id === channelId`. -/
def findInChannels : StateForest → List Nat → Option ItemState
  | .nil, _ => none
  | .leafCons it p rest, cid =>
    if it.id = cid then some ⟨it, p, false, none⟩ else findInChannels rest cid
  | .teamCons it p e chs rest, cid =>
    if it.id = cid then some ⟨it, p, e, some chs⟩ else findInChannels rest cid

/-- The loop of `selectChannelById` (source lines 305-312): iterate the
    top-level elements of `_treeViewState`; `for (const channel of
    item.channels)` on an element with no `channels` array iterates
    `undefined` and throws a `TypeError`. -/
def searchTreeViewState : StateForest → List Nat → Except Unit (Option ItemState)
  | .nil, _ => Except.ok none
  | .leafCons _ _ _, _ => Except.error ()
  | .teamCons _ _ _ chs rest, cid =>
    match findInChannels chs cid with
    | some ch => Except.ok (some ch)
    | none => searchTreeViewState rest cid

/-- Model of `selectChannelById(channelId)` (source lines 297-315) for the
    signed-in path with items already loaded (all claims about it concern
    loaded states; when `items` are absent the source first awaits
    `requestStateUpdate()`, an external fetch).  Returns the fired
    `selectionChanged` detail (if any) and the final state paired with the
    boolean result, or the modelled thrown error. -/
def selectChannelById (st : PickerState) (signedIn : Bool) (channelId : List Nat) :
    Option (List SelectedChannel) × Except Unit (PickerState × Bool) :=
  if signedIn then
    match searchTreeViewState st.treeViewState channelId with
    | Except.error e => (none, Except.error e)
    | Except.ok none => (none, Except.ok (st, false))
    | Except.ok (some ch) =>
      let r := selectChannel st (some ch)
      (r.1, r.2.map (fun st' => (st', true)))
  else
    (none, Except.ok (st, false))

/-- Model of the `case 40` (down arrow) branch of `onUserKeyDown` (source
    lines 846-854), including the early return when `_treeViewState` is
    empty (source line 837).  The boolean records whether browser focus
    was moved into the list (`treeList.focus()`). -/
def onUserKeyDownDown (st : PickerState) : PickerState × Bool :=
  if st.treeViewState.length = 0 then
    (st, false)
  else
    ((if st.focusedIndex < (st.focusList.length : Int) - 1 then
        { st with focusedIndex := st.focusedIndex + 1 }
      else st),
      decide (st.focusedIndex = -1))

/-- The three text fragments produced by `renderHighlightedText` (source
    lines 567-606).  The source leaves fields of its `channels` object
    unset on some paths; an unset field renders as empty text, so unset
    fields are modelled as the empty string. -/
structure HighlightParts where
  first : List Nat
  highlight : List Nat
  last : List Nat
deriving DecidableEq

/-- Model of the fragment computation of `renderHighlightedText(channel)`:
    locate the lowercased `_inputValue` in the lowercased `displayName`
    and split `displayName` (in its original casing) around the match. -/
def renderHighlightedTextParts (displayName inputValue : List Nat) : HighlightParts :=
  match indexOfStr (lowerStr displayName) (lowerStr inputValue) with
  | none => ⟨[], [], displayName⟩
  | some loc =>
    if loc = 0 then
      ⟨[], jsSlice displayName 0 inputValue.length,
        jsSlice displayName inputValue.length displayName.length⟩
    else if loc = displayName.length then
      ⟨jsSlice displayName 0 loc, jsSlice displayName loc displayName.length, []⟩
    else
      ⟨jsSlice displayName 0 loc, jsSlice displayName loc (loc + inputValue.length),
        jsSlice displayName (loc + inputValue.length) displayName.length⟩

/-- Following the spec's words for the empty-filter build (C5): the
    identity copy of the source tree into a presentation tree, same nodes
    in the same order and structure, every `isExpanded` flag false. -/
def unfilteredCopy : DropForest → Option GraphItem → StateForest
  | .nil, _ => .nil
  | .leafCons it rest, parent => .leafCons it parent (unfilteredCopy rest parent)
  | .teamCons it chs rest, parent =>
    .teamCons it parent false (unfilteredCopy chs (some it)) (unfilteredCopy rest parent)

/-- Checks that every leaf (element without a `channels` array) of a
    presentation forest either has a lowercased `displayName` containing
    `fs`, or sits below an ancestor whose lowercased `displayName`
    contains `fs`; `anc` records whether such an ancestor was already
    seen above the forest. -/
def leavesMatchOrAncestor (fs : List Nat) (anc : Bool) : StateForest → Bool
  | .nil => true
  | .leafCons it _ rest =>
    (anc || strContains (lowerStr it.displayName) fs) && leavesMatchOrAncestor fs anc rest
  | .teamCons it _ _ chs rest =>
    leavesMatchOrAncestor fs (anc || strContains (lowerStr it.displayName) fs) chs &&
      leavesMatchOrAncestor fs anc rest

/-- A node value is visible in a presentation forest when it is one of the
    forest's elements, or sits inside the `channels` array of a visible
    element that is expanded: exactly the nodes all of whose ancestors are
    expanded. -/
inductive VisibleIn : ItemState → StateForest → Prop where
  | root {s : ItemState} {F : StateForest} (h : s ∈ roots F) : VisibleIn s F
  | child {s t : ItemState} {F : StateForest} {chs : StateForest} (ht : t ∈ roots F)
      (he : t.isExpanded = true) (hc : t.channels = some chs) (h : VisibleIn s chs) :
      VisibleIn s F

/-- Whether some top-level element of a presentation forest has a
    `channels` array containing an element with the given id: the set of
    ids `selectChannelById` can find in a given `_treeViewState`. -/
def viewHasChannelId (F : StateForest) (cid : List Nat) : Bool :=
  (roots F).any fun it =>
    (roots (it.channels.getD .nil)).any fun c => c.item.id = cid

/-- Whether some element of a raw source forest has a `channels` array
    containing an element with the given id (a channel of the loaded
    source data, in the claims' words). -/
def sourceHasChannelId : DropForest → List Nat → Bool
  | .nil, _ => false
  | .leafCons _ rest, cid => sourceHasChannelId rest cid
  | .teamCons _ chs rest, cid => dropHasEntryId chs cid || sourceHasChannelId rest cid
where
  /-- Whether some top-level element of a raw forest has the given id. -/
  dropHasEntryId : DropForest → List Nat → Bool
  | .nil, _ => false
  | .leafCons it rest, cid => it.id = cid || dropHasEntryId rest cid
  | .teamCons it _ rest, cid => it.id = cid || dropHasEntryId rest cid

/-- Whether a modelled string consists only of whitespace code units
    (space, tab, line feed, carriage return, form feed). -/
def isWhitespaceOnly (s : List Nat) : Bool :=
  s.all fun n => n = 32 || n = 9 || n = 10 || n = 13 || n = 12

theorem lowerNat_idem (n : Nat) : lowerNat (lowerNat n) = lowerNat n := by
  by_cases h : 65 ≤ n ∧ n ≤ 90
  · have h32 : ¬(65 ≤ n + 32 ∧ n + 32 ≤ 90) := by omega
    simp only [lowerNat, if_pos h, if_neg h32]
  · simp only [lowerNat, if_neg h]

theorem lowerStr_idem (s : List Nat) : lowerStr (lowerStr s) = lowerStr s := by
  simp only [lowerStr, List.map_map]
  exact List.map_congr_left fun n _ => lowerNat_idem n

theorem lowerStr_length (s : List Nat) : (lowerStr s).length = s.length := by
  simp [lowerStr]

theorem strContains_nil_sub (s : List Nat) : strContains s [] = true := by
  cases s <;> simp [strContains, prefixAt]

theorem leavesMatchOrAncestor_true (F : StateForest) (fs : List Nat) :
    leavesMatchOrAncestor fs true F = true := by
  induction F with
  | nil => rfl
  | leafCons it p rest ih => simp [leavesMatchOrAncestor, ih]
  | teamCons it p e chs rest ihc ihr => simp [leavesMatchOrAncestor, ihc, ihr]

theorem leavesMatchOrAncestor_nil_filter (F : StateForest) :
    ∀ b : Bool, leavesMatchOrAncestor [] b F = true := by
  induction F with
  | nil => intro b; rfl
  | leafCons it p rest ih => intro b; simp [leavesMatchOrAncestor, strContains_nil_sub, ih]
  | teamCons it p e chs rest ihc ihr => intro b; simp [leavesMatchOrAncestor, ihc, ihr]

/-- Every leaf kept by the tree builder matches the (lowercased) filter or
    sits below a kept ancestor that matches it. -/
theorem leavesMatchOrAncestor_generateTreeViewState (T : DropForest) :
    ∀ (f : List Nat) (p : Option GraphItem),
      leavesMatchOrAncestor (lowerStr f) false (generateTreeViewState T f p) = true := by
  induction T with
  | nil => intro f p; rfl
  | leafCons it rest ih =>
    intro f p
    by_cases h0 : (lowerStr f).length = 0
    · rw [List.length_eq_zero] at h0
      rw [h0]
      exact leavesMatchOrAncestor_nil_filter _ false
    · simp only [generateTreeViewState]
      by_cases hm : strContains (lowerStr it.displayName) (lowerStr f) = true
      · rw [if_pos (Or.inr hm)]
        simp [leavesMatchOrAncestor, hm, ih f p]
      · rw [if_neg (by tauto)]
        exact ih f p
  | teamCons it chs rest ihc ihr =>
    intro f p
    by_cases h0 : (lowerStr f).length = 0
    · rw [List.length_eq_zero] at h0
      rw [h0]
      exact leavesMatchOrAncestor_nil_filter _ false
    · simp only [generateTreeViewState]
      by_cases hm : strContains (lowerStr it.displayName) (lowerStr f) = true
      · rw [if_pos (Or.inr hm)]
        simp only [leavesMatchOrAncestor, Bool.false_or, hm]
        rw [Bool.and_eq_true]
        exact ⟨leavesMatchOrAncestor_true _ _, ihr f p⟩
      · rw [if_neg (by tauto)]
        by_cases hn : 0 < (generateTreeViewState chs (lowerStr f) (some it)).length
        · rw [if_pos hn]
          have hm' : strContains (lowerStr it.displayName) (lowerStr f) = false :=
            Bool.eq_false_iff.mpr hm
          have hc : leavesMatchOrAncestor (lowerStr f) false
              (generateTreeViewState chs (lowerStr f) (some it)) = true := by
            have h := ihc (lowerStr f) (some it)
            rwa [lowerStr_idem] at h
          simp only [leavesMatchOrAncestor, Bool.false_or, hm', hc, ihr f p, Bool.and_self]
        · rw [if_neg hn]
          exact ihr f p

/-- With the empty filter the tree builder is the identity copy with all
    `isExpanded` flags false. -/
theorem generateTreeViewState_empty_filter (T : DropForest) :
    ∀ p : Option GraphItem, generateTreeViewState T [] p = unfilteredCopy T p := by
  induction T with
  | nil => intro p; rfl
  | leafCons it rest ih => intro p; simp [generateTreeViewState, unfilteredCopy, lowerStr, ih]
  | teamCons it chs rest ihc ihr =>
    intro p; simp [generateTreeViewState, unfilteredCopy, lowerStr, ihc, ihr]

theorem visibleIn_nil (s : ItemState) : ¬ VisibleIn s StateForest.nil := by
  intro h
  cases h with
  | root h => simp [roots] at h
  | child ht he hc h => simp [roots] at ht

theorem visibleIn_leafCons (s : ItemState) (it : GraphItem) (p : Option GraphItem)
    (rest : StateForest) :
    VisibleIn s (StateForest.leafCons it p rest) ↔
      s = ⟨it, p, false, none⟩ ∨ VisibleIn s rest := by
  constructor
  · intro h
    cases h with
    | root h =>
      rcases List.mem_cons.mp (by simpa [roots] using h) with h | h
      · exact Or.inl h
      · exact Or.inr (VisibleIn.root h)
    | child ht he hc h =>
      rcases List.mem_cons.mp (by simpa [roots] using ht) with ht' | ht'
      · subst ht'; simp at hc
      · exact Or.inr (VisibleIn.child ht' he hc h)
  · intro h
    rcases h with h | h
    · exact VisibleIn.root (by simp [roots, h])
    · cases h with
      | root h => exact VisibleIn.root (by simp [roots]; exact Or.inr h)
      | child ht he hc h => exact VisibleIn.child (by simp [roots]; exact Or.inr ht) he hc h

theorem visibleIn_teamCons (s : ItemState) (it : GraphItem) (p : Option GraphItem) (e : Bool)
    (chs rest : StateForest) :
    VisibleIn s (StateForest.teamCons it p e chs rest) ↔
      s = ⟨it, p, e, some chs⟩ ∨ (e = true ∧ VisibleIn s chs) ∨ VisibleIn s rest := by
  constructor
  · intro h
    cases h with
    | root h =>
      rcases List.mem_cons.mp (by simpa [roots] using h) with h | h
      · exact Or.inl h
      · exact Or.inr (Or.inr (VisibleIn.root h))
    | child ht he hc h =>
      rcases List.mem_cons.mp (by simpa [roots] using ht) with ht' | ht'
      · subst ht'
        simp only at he hc
        cases hc
        exact Or.inr (Or.inl ⟨he, h⟩)
      · exact Or.inr (Or.inr (VisibleIn.child ht' he hc h))
  · intro h
    rcases h with h | ⟨he, h⟩ | h
    · exact VisibleIn.root (by simp [roots, h])
    · exact VisibleIn.child (t := ⟨it, p, e, some chs⟩) (by simp [roots]) (by simpa using he)
        (by simp) h
    · cases h with
      | root h => exact VisibleIn.root (by simp [roots]; exact Or.inr h)
      | child ht he hc h => exact VisibleIn.child (by simp [roots]; exact Or.inr ht) he hc h

/-- Membership in the flattened focus list is exactly visibility: being an
    element, or sitting below expanded ancestors only. -/
theorem mem_generateFocusList_iff (F : StateForest) :
    ∀ s : ItemState, s ∈ generateFocusList F ↔ VisibleIn s F := by
  induction F with
  | nil =>
    intro s
    simp only [generateFocusList, List.not_mem_nil, false_iff]
    exact visibleIn_nil s
  | leafCons it p rest ih =>
    intro s
    simp only [generateFocusList, List.mem_cons, visibleIn_leafCons, ih]
  | teamCons it p e chs rest ihc ihr =>
    intro s
    cases e <;>
      simp [generateFocusList, List.mem_cons, List.mem_append, visibleIn_teamCons, ihc, ihr]

theorem prefixAt_length {sub : List Nat} :
    ∀ {s : List Nat}, prefixAt s sub = true → sub.length ≤ s.length := by
  induction sub with
  | nil => intro s _; simp
  | cons b bs ih =>
    intro s h
    cases s with
    | nil => simp [prefixAt] at h
    | cons a as =>
      rw [prefixAt, Bool.and_eq_true] at h
      simpa [Nat.succ_le_succ_iff] using ih h.2

theorem indexOfStr_nil_sub (s : List Nat) : indexOfStr s [] = some 0 := by
  cases s <;> simp [indexOfStr, prefixAt]

theorem indexOfStr_bound {sub : List Nat} :
    ∀ {s : List Nat} {i : Nat}, indexOfStr s sub = some i → i + sub.length ≤ s.length := by
  intro s
  induction s with
  | nil =>
    intro i h
    cases sub with
    | nil => simp [indexOfStr, prefixAt] at h; omega
    | cons b bs => simp [indexOfStr, prefixAt] at h
  | cons a as ih =>
    intro i h
    by_cases hp : prefixAt (a :: as) sub = true
    · rw [indexOfStr, if_pos hp] at h
      cases h
      simpa using prefixAt_length hp
    · rw [indexOfStr, if_neg hp] at h
      rcases Option.map_eq_some'.mp h with ⟨j, hj, rfl⟩
      have := ih hj
      simp only [List.length_cons]
      omega

/-- Example team item (id `t1`, display name `Engineering`). -/
def teamT1 : GraphItem :=
  ⟨jsStr (r"t1"), jsStr (r"Engineering")⟩

/-- Example channel item (id `c1`, display name `General`). -/
def chanC1 : GraphItem :=
  ⟨jsStr (r"c1"), jsStr (r"General")⟩

/-- Example channel item (id `c2`, display name `Backend`). -/
def chanC2 : GraphItem :=
  ⟨jsStr (r"c2"), jsStr (r"Backend")⟩

/-- Example loaded source tree: one team `Engineering` with channels
    `General` and `Backend` (the spec's own scenario data). -/
def exItems : DropForest :=
  .teamCons teamT1 (.leafCons chanC1 (.leafCons chanC2 .nil)) .nil

/-- The example filter string `back`. -/
def backFilter : List Nat := jsStr (r"back")

/-- The whitespace-only filter string consisting of a single space. -/
def spaceFilter : List Nat := jsStr (r" ")

/-- C4: for every source tree `T` and every filter string `f`, every leaf
    (channel) node present in the tree built by `generateTreeViewState (T, f)`
    either has a `displayName` containing `f` as a case-insensitive
    substring, or has an ancestor node whose own `displayName` contains `f`
    as a case-insensitive substring. -/
theorem claim4_filtered_leaves_match_or_ancestor (T : DropForest) (f : List Nat)
    (p : Option GraphItem) :
    leavesMatchOrAncestor (lowerStr f) false (generateTreeViewState T f p) = true :=
  leavesMatchOrAncestor_generateTreeViewState T f p

/-- C5: for every source tree `T`, building with the empty filter string
    yields a presentation tree isomorphic to `T` — the same nodes in the
    same order with the same parent/child structure — and every node's
    expanded flag is false (an absent flag is modelled as false). -/
theorem claim5_empty_filter_is_identity (T : DropForest) (p : Option GraphItem) :
    generateTreeViewState T [] p = unfilteredCopy T p :=
  generateTreeViewState_empty_filter T p

/-- C6 counterexample: with the source tree of one team `Engineering`
    containing `General` and `Backend`, building with the whitespace-only
    filter consisting of one space differs from building with the empty
    filter (the space filter prunes everything, since no display name
    contains a space), refuting the claim that a whitespace-only filter
    behaves as the empty filter. -/
theorem claim6_counterexample :
    isWhitespaceOnly spaceFilter = true ∧ spaceFilter ≠ [] ∧
      generateTreeViewState exItems spaceFilter none ≠
        generateTreeViewState exItems [] none := by
  refine ⟨by decide, by decide, by decide⟩

/-- C6 amended: a filter consisting only of whitespace is not treated as
    empty; lowercasing leaves it unchanged and the builder applies it as an
    ordinary substring filter, so every leaf it keeps matches the
    whitespace string or sits below an ancestor whose name does. -/
theorem claim6_amended_whitespace_is_ordinary_filter (T : DropForest) (w : List Nat)
    (p : Option GraphItem) (hw : isWhitespaceOnly w = true) (_hne : w ≠ []) :
    lowerStr w = w ∧
      leavesMatchOrAncestor w false (generateTreeViewState T w p) = true := by
  have hlw : lowerStr w = w := by
    have hall : ∀ n ∈ w, lowerNat n = n := by
      intro n hn
      have hwn := List.all_eq_true.mp hw n hn
      simp only [Bool.or_eq_true, decide_eq_true_eq] at hwn
      unfold lowerNat
      rw [if_neg (by omega)]
    simpa [lowerStr] using List.map_congr_left fun n hn => hall n hn
  refine ⟨hlw, ?_⟩
  have h := leavesMatchOrAncestor_generateTreeViewState T w p
  rwa [hlw] at h

/-- C6 amended witness: the single-space filter at the example tree. -/
theorem claim6_amended_witness :
    lowerStr spaceFilter = spaceFilter ∧
      leavesMatchOrAncestor spaceFilter false
        (generateTreeViewState exItems spaceFilter none) = true :=
  claim6_amended_whitespace_is_ordinary_filter exItems spaceFilter none (by decide) (by decide)

/-- C8: the flattened focus list contains exactly the visible nodes (an
    element of the forest, or a node below exclusively expanded ancestors —
    never a node any of whose ancestors is unexpanded), and it is the
    pre-order depth-first traversal: each element first, then its flattened
    channels exactly when it is expanded, then the remaining elements. -/
theorem claim8_focus_list_preorder_of_visible (F : StateForest) :
    (∀ s : ItemState, s ∈ generateFocusList F ↔ VisibleIn s F) ∧
    (∀ (it : GraphItem) (p : Option GraphItem) (rest : StateForest),
      generateFocusList (StateForest.leafCons it p rest) =
        ⟨it, p, false, none⟩ :: generateFocusList rest) ∧
    (∀ (it : GraphItem) (p : Option GraphItem) (e : Bool) (chs rest : StateForest),
      generateFocusList (StateForest.teamCons it p e chs rest) =
        ⟨it, p, e, some chs⟩ ::
          ((if e then generateFocusList chs else []) ++ generateFocusList rest)) :=
  ⟨mem_generateFocusList_iff F, fun _ _ _ => rfl, fun _ _ _ _ _ => rfl⟩

/-- C7: if the filter does not occur case-insensitively in the display
    name, the highlight fragments are before = match = empty and
    after = the display name; if it first occurs at `loc`, the fragments
    are the verbatim pieces of the original-cased display name around a
    match of exactly the filter's length, and they concatenate back to the
    display name (covering the match-at-end case, where after = empty). -/
theorem claim7_highlight_fragments (dn inp : List Nat) :
    (indexOfStr (lowerStr dn) (lowerStr inp) = none →
      renderHighlightedTextParts dn inp = ⟨[], [], dn⟩) ∧
    (∀ loc, indexOfStr (lowerStr dn) (lowerStr inp) = some loc →
      renderHighlightedTextParts dn inp =
        ⟨dn.take loc, (dn.drop loc).take inp.length, dn.drop (loc + inp.length)⟩ ∧
      dn.take loc ++ ((dn.drop loc).take inp.length ++ dn.drop (loc + inp.length)) = dn ∧
      ((dn.drop loc).take inp.length).length = inp.length) := by
  constructor
  · intro h
    simp [renderHighlightedTextParts, h]
  · intro loc h
    have hb := indexOfStr_bound h
    rw [lowerStr_length, lowerStr_length] at hb
    have hparts : renderHighlightedTextParts dn inp =
        ⟨dn.take loc, (dn.drop loc).take inp.length, dn.drop (loc + inp.length)⟩ := by
      by_cases h0 : loc = 0
      · subst h0
        simp [renderHighlightedTextParts, h, jsSlice, List.take_length]
      · have h1 : loc ≠ dn.length := by
          intro hEq
          have hlen : inp.length = 0 := by omega
          have hinp : lowerStr inp = [] :=
            List.length_eq_zero.mp (by rw [lowerStr_length]; exact hlen)
          rw [hinp, indexOfStr_nil_sub, Option.some.injEq] at h
          exact h0 h.symm
        simp only [renderHighlightedTextParts, h, if_neg h0, if_neg h1]
        simp [jsSlice, List.drop_take, List.take_length, Nat.add_sub_cancel_left]
    refine ⟨hparts, ?_, ?_⟩
    · have hd : dn.drop (loc + inp.length) = (dn.drop loc).drop inp.length := by
        rw [List.drop_drop]
      rw [hd, List.take_append_drop, List.take_append_drop]
    · rw [List.length_take, List.length_drop]
      omega

/-- C7 witness: highlighting `Backend` against the filter `back` matches at
    index 0 and yields before empty, match `Back`, after `end`. -/
theorem claim7_witness :
    indexOfStr (lowerStr (jsStr (r"Backend"))) (lowerStr backFilter) = some 0 ∧
    renderHighlightedTextParts (jsStr (r"Backend")) backFilter =
      ⟨(jsStr (r"Backend")).take 0, ((jsStr (r"Backend")).drop 0).take backFilter.length,
        (jsStr (r"Backend")).drop (0 + backFilter.length)⟩ :=
  ⟨by decide, ((claim7_highlight_fragments (jsStr (r"Backend")) backFilter).2 0 (by decide)).1⟩

theorem filterList_selectedItemState (st : PickerState) :
    (filterList st).selectedItemState = st.selectedItemState := by
  unfold filterList; cases st.items <;> rfl

theorem filterList_inputValue (st : PickerState) :
    (filterList st).inputValue = st.inputValue := by
  unfold filterList; cases st.items <;> rfl

theorem filterList_isFocused (st : PickerState) :
    (filterList st).isFocused = st.isFocused := by
  unfold filterList; cases st.items <;> rfl

theorem filterList_isDropdownVisible (st : PickerState) :
    (filterList st).isDropdownVisible = st.isDropdownVisible := by
  unfold filterList; cases st.items <;> rfl

theorem filterList_of_items_some (st : PickerState) (its : DropForest)
    (h : st.items = some its) :
    (filterList st).treeViewState = generateTreeViewState its st.inputValue none ∧
      (filterList st).focusedIndex = -1 ∧
      (filterList st).focusList =
        generateFocusList (generateTreeViewState its st.inputValue none) := by
  unfold filterList; rw [h]; exact ⟨rfl, rfl, rfl⟩

theorem filterList_of_items_none (st : PickerState) (h : st.items = none) :
    filterList st = st := by
  unfold filterList; rw [h]

/-- Behaviour of `lostFocus` split on the current selection: with no
    selection the input text is cleared, with a selection whose parent is
    set it is kept; either way focus and dropdown visibility drop and
    `filterList` runs. -/
theorem lostFocus_spec (st : PickerState) :
    (st.selectedItemState = none →
      lostFocus st = Except.ok (filterList
        { st with isFocused := false, inputValue := [], isDropdownVisible := false })) ∧
    (∀ (s : ItemState) (p : GraphItem), st.selectedItemState = some s → s.parent = some p →
      lostFocus st = Except.ok (filterList
        { st with isFocused := false, isDropdownVisible := false })) := by
  constructor
  · intro h
    unfold lostFocus
    rw [h]
    exact rfl
  · intro s p hs hp
    unfold lostFocus
    rw [hs]
    simp only [selectedItemE]
    rw [hp]
    exact rfl

/-- C9: selection-change notification behaviour of `selectChannel`: calling
    it with the node that is already the current selection — including
    selecting null when nothing is selected, and in particular the
    Escape-key path `selectChannel(this._selectedItemState)` — fires no
    `selectionChanged` event; selecting a different non-null leaf (a
    channel, whose parent team is set) fires one carrying the
    single-element array of its derived pair; selecting null when
    something was selected fires one carrying the empty array. -/
theorem claim9_selection_notification (st : PickerState) :
    ((selectChannel st st.selectedItemState).1 = none) ∧
    (∀ (s : ItemState) (p : GraphItem), st.selectedItemState ≠ some s → s.parent = some p →
      (selectChannel st (some s)).1 = some [SelectedChannel.mk s.item p]) ∧
    (st.selectedItemState ≠ none → (selectChannel st none).1 = some []) := by
  refine ⟨?_, ?_, ?_⟩
  · unfold selectChannel
    rw [if_neg (by simp)]
    exact rfl
  · intro s p hne hp
    unfold selectChannel
    rw [if_pos hne]
    simp only
    rw [hp]
    exact rfl
  · intro hne
    unfold selectChannel
    rw [if_pos hne]
    exact rfl

/-- The channel `Backend` as a presentation leaf below team `Engineering`. -/
def exLeafC2 : ItemState := ⟨chanC2, some teamT1, false, none⟩

/-- An idle picker state with nothing loaded and nothing selected. -/
def exStateIdle : PickerState :=
  { selectedItemState := none, inputValue := [], isFocused := false,
    isDropdownVisible := false, items := none, treeViewState := .nil,
    focusedIndex := -1, focusList := [] }

/-- C9 witness: selecting the `Backend` leaf when nothing is selected fires
    a `selectionChanged` event carrying exactly its channel/team pair. -/
theorem claim9_witness :
    (selectChannel exStateIdle (some exLeafC2)).1 = some [SelectedChannel.mk chanC2 teamT1] :=
  (claim9_selection_notification exStateIdle).2.1 exLeafC2 teamT1 (by decide) rfl

/-- C10: calling `selectChannel` with the node that is already selected
    (the case the spec calls a no-op) still mutates state: the typed input
    text is cleared, the dropdown is hidden, focus is dropped, and —
    whenever items are loaded — the tree view is re-derived through
    `lostFocus`/`filterList` from the now-empty input (with the focus list
    rebuilt and the focus index reset); only the notification is
    suppressed, and the selection itself is kept. -/
theorem claim10_same_node_select_still_mutates (st : PickerState) (item : Option ItemState)
    (hsame : st.selectedItemState = item)
    (hpar : ∀ s : ItemState, st.selectedItemState = some s → ∃ p, s.parent = some p) :
    (selectChannel st item).1 = none ∧
    ∃ st', (selectChannel st item).2 = Except.ok st' ∧
      st'.inputValue = [] ∧ st'.isDropdownVisible = false ∧ st'.isFocused = false ∧
      st'.selectedItemState = st.selectedItemState ∧
      (∀ its, st.items = some its →
        st'.treeViewState = generateTreeViewState its [] none ∧
        st'.focusedIndex = -1 ∧
        st'.focusList = generateFocusList (generateTreeViewState its [] none)) ∧
      (st.items = none → st'.treeViewState = st.treeViewState) := by
  have hsel : selectChannel st item = selectChannelFinish st none := by
    unfold selectChannel
    rw [if_neg (by simp [hsame])]
  refine ⟨by rw [hsel]; exact rfl, ?_⟩
  have hfin : (selectChannel st item).2 = lostFocus { st with inputValue := [] } := by
    rw [hsel]; rfl
  cases hcur : st.selectedItemState with
  | none =>
    have hlf := (lostFocus_spec { st with inputValue := [] }).1 (by simpa using hcur)
    refine ⟨_, by rw [hfin, hlf], ?_, ?_, ?_, ?_, ?_, ?_⟩
    · rw [filterList_inputValue]
    · rw [filterList_isDropdownVisible]
    · rw [filterList_isFocused]
    · rw [filterList_selectedItemState]; exact hcur
    · intro its hits
      exact filterList_of_items_some _ its (by simpa using hits)
    · intro hits
      rw [filterList_of_items_none _ (by simpa using hits)]
  | some s =>
    rcases hpar s hcur with ⟨p, hp⟩
    have hlf := (lostFocus_spec { st with inputValue := [] }).2 s p (by simpa using hcur) hp
    refine ⟨_, by rw [hfin, hlf], ?_, ?_, ?_, ?_, ?_, ?_⟩
    · rw [filterList_inputValue]
    · rw [filterList_isDropdownVisible]
    · rw [filterList_isFocused]
    · rw [filterList_selectedItemState]; exact hcur
    · intro its hits
      exact filterList_of_items_some _ its (by simpa using hits)
    · intro hits
      rw [filterList_of_items_none _ (by simpa using hits)]

/-- The presentation tree built from the example tree with filter `back`:
    the team expanded with only the `Backend` channel. -/
def exFilteredView : StateForest := generateTreeViewState exItems backFilter none

/-- A picker state in which the user has typed `back` and the tree view is
    the corresponding filtered rebuild, with `Backend` selected. -/
def exStateSelected : PickerState :=
  { selectedItemState := some ⟨chanC2, some teamT1, false, none⟩, inputValue := backFilter,
    isFocused := true, isDropdownVisible := true, items := some exItems,
    treeViewState := exFilteredView, focusedIndex := 0,
    focusList := generateFocusList exFilteredView }

/-- C10 witness: re-selecting the already selected `Backend` leaf in the
    filtered example state fires nothing but clears the text, hides the
    dropdown and rebuilds the tree view from the empty filter. -/
theorem claim10_witness :
    (selectChannel exStateSelected (some ⟨chanC2, some teamT1, false, none⟩)).1 = none ∧
    ∃ st', (selectChannel exStateSelected (some ⟨chanC2, some teamT1, false, none⟩)).2 =
        Except.ok st' ∧
      st'.inputValue = [] ∧ st'.isDropdownVisible = false ∧ st'.isFocused = false ∧
      st'.selectedItemState = exStateSelected.selectedItemState ∧
      (∀ its, exStateSelected.items = some its →
        st'.treeViewState = generateTreeViewState its [] none ∧
        st'.focusedIndex = -1 ∧
        st'.focusList = generateFocusList (generateTreeViewState its [] none)) ∧
      (exStateSelected.items = none → st'.treeViewState = exStateSelected.treeViewState) :=
  claim10_same_node_select_still_mutates exStateSelected
    (some ⟨chanC2, some teamT1, false, none⟩) rfl
    (by
      intro s hs
      have hs' : some (⟨chanC2, some teamT1, false, none⟩ : ItemState) = some s := hs
      injection hs' with h
      exact ⟨teamT1, by rw [← h]⟩)

/-- The presentation tree of the example data with the team manually
    expanded (as after toggling it open), giving three flattened entries. -/
def exExpandedView : StateForest :=
  .teamCons teamT1 none true
    (.leafCons chanC1 (some teamT1) (.leafCons chanC2 (some teamT1) .nil)) .nil

/-- A picker state whose dropdown shows the expanded example tree with no
    entry focused (focus index `-1`) and three flattened entries. -/
def exStateFocus : PickerState :=
  { selectedItemState := none, inputValue := [], isFocused := true,
    isDropdownVisible := true, items := some exItems, treeViewState := exExpandedView,
    focusedIndex := -1, focusList := generateFocusList exExpandedView }

/-- C3 counterexample: in a state with three flattened entries and focus
    index `-1`, a single Down press moves browser focus into the list AND
    already advances the logical focus index to `0` — the claim that the
    index stays `-1` until a second press is false (the two `if`s of the
    `case 40` branch are not exclusive). -/
theorem claim3_counterexample :
    exStateFocus.focusedIndex = -1 ∧ exStateFocus.focusList.length = 3 ∧
    exStateFocus.treeViewState.length ≠ 0 ∧
    (onUserKeyDownDown exStateFocus).2 = true ∧
    (onUserKeyDownDown exStateFocus).1.focusedIndex = 0 := by
  refine ⟨rfl, by decide, by decide, by decide, by decide⟩

/-- C3 amended: with a non-empty tree view, a Down press at focus index
    `-1` moves browser focus into the list and advances the index to `0`
    in the same press (when the focus list is non-empty); at the last
    entry the index is left unchanged (no wraparound); browser focus is
    only moved when the index was `-1`; and in the remaining positions the
    index advances by one. -/
theorem claim3_amended_down_key (st : PickerState) (ht : st.treeViewState.length ≠ 0) :
    (st.focusedIndex = -1 → st.focusList ≠ [] →
      (onUserKeyDownDown st).2 = true ∧ (onUserKeyDownDown st).1.focusedIndex = 0) ∧
    (st.focusedIndex = (st.focusList.length : Int) - 1 →
      (onUserKeyDownDown st).1.focusedIndex = st.focusedIndex) ∧
    (st.focusedIndex ≠ -1 → (onUserKeyDownDown st).2 = false) ∧
    (st.focusedIndex ≠ -1 → st.focusedIndex < (st.focusList.length : Int) - 1 →
      (onUserKeyDownDown st).1.focusedIndex = st.focusedIndex + 1) := by
  unfold onUserKeyDownDown
  rw [if_neg ht]
  refine ⟨?_, ?_, ?_, ?_⟩
  · intro h0 hne
    have hlen : 0 < st.focusList.length := List.length_pos.mpr hne
    rw [if_pos (by rw [h0]; omega)]
    exact ⟨by simp [h0], by simp [h0]⟩
  · intro hlast
    rw [if_neg (by omega)]
  · intro h0
    simp [h0]
  · intro h0 hlt
    rw [if_pos hlt]

/-- C3 amended witness: the first Down press in the example state yields
    browser focus movement together with index `0`. -/
theorem claim3_amended_witness :
    (onUserKeyDownDown exStateFocus).2 = true ∧
    (onUserKeyDownDown exStateFocus).1.focusedIndex = 0 :=
  (claim3_amended_down_key exStateFocus (by decide)).1 rfl (by decide)

/-- A loaded source tree whose only team got no channel content from the
    batch request, so its `channels` field is `undefined` (exactly the
    shape `loadState` produces in that case). -/
def exItemsNoChannels : DropForest := .leafCons teamT1 .nil

/-- The picker state after such a load: tree view derived from the items
    with the empty filter. -/
def exStateNoChannels : PickerState :=
  { selectedItemState := none, inputValue := [], isFocused := false,
    isDropdownVisible := false, items := some exItemsNoChannels,
    treeViewState := generateTreeViewState exItemsNoChannels [] none,
    focusedIndex := -1,
    focusList := generateFocusList (generateTreeViewState exItemsNoChannels [] none) }

/-- C2 failing evaluation: on a loaded state whose (unfiltered) tree view
    contains a team entry without a `channels` list, `selectChannelById`
    throws — `for (const channel of item.channels)` iterates `undefined` —
    instead of completing with a boolean. -/
theorem claim2_selectChannelById_throws :
    exStateNoChannels.treeViewState = generateTreeViewState exItemsNoChannels [] none ∧
    exStateNoChannels.treeViewState = .leafCons teamT1 none .nil ∧
    (selectChannelById exStateNoChannels true (jsStr (r"c1"))).2 = Except.error () :=
  ⟨rfl, by decide, rfl⟩

/-- The picker state while the user's filter `back` is applied: the tree
    view retains only the `Backend` channel; `General` (id `c1`) is pruned. -/
def exStateFiltered : PickerState :=
  { selectedItemState := none, inputValue := backFilter, isFocused := true,
    isDropdownVisible := true, items := some exItems, treeViewState := exFilteredView,
    focusedIndex := -1, focusList := generateFocusList exFilteredView }

/-- C1 counterexample: channel `c1` (`General`) is present in the loaded
    source data, the state's tree view is exactly the filtered rebuild for
    the current filter text `back`, yet `selectChannelById` returns
    `false` and selects nothing — it searches the filtered tree view
    state, not the full unfiltered source tree. -/
theorem claim1_counterexample :
    sourceHasChannelId exItems (jsStr (r"c1")) = true ∧
    exStateFiltered.treeViewState =
      generateTreeViewState exItems exStateFiltered.inputValue none ∧
    (selectChannelById exStateFiltered true (jsStr (r"c1"))).2 =
      Except.ok (exStateFiltered, false) ∧
    (selectChannelById exStateFiltered true (jsStr (r"c1"))).1 = none :=
  ⟨by decide, rfl, rfl, rfl⟩

theorem findInChannels_some {cid : List Nat} :
    ∀ {chs : StateForest} {ch : ItemState}, findInChannels chs cid = some ch →
      ch ∈ roots chs ∧ ch.item.id = cid := by
  intro chs
  induction chs with
  | nil => intro ch h; simp [findInChannels] at h
  | leafCons it p rest ih =>
    intro ch h
    rw [findInChannels] at h
    by_cases hid : it.id = cid
    · rw [if_pos hid] at h
      cases h
      exact ⟨by simp [roots], hid⟩
    · rw [if_neg hid] at h
      rcases ih h with ⟨hm, hi⟩
      exact ⟨by simp only [roots, List.mem_cons]; exact Or.inr hm, hi⟩
  | teamCons it p e chs' rest ihc ihr =>
    intro ch h
    rw [findInChannels] at h
    by_cases hid : it.id = cid
    · rw [if_pos hid] at h
      cases h
      exact ⟨by simp [roots], hid⟩
    · rw [if_neg hid] at h
      rcases ihr h with ⟨hm, hi⟩
      exact ⟨by simp only [roots, List.mem_cons]; exact Or.inr hm, hi⟩

theorem findInChannels_none {cid : List Nat} :
    ∀ {chs : StateForest}, findInChannels chs cid = none →
      ((roots chs).any fun c => c.item.id = cid) = false := by
  intro chs
  induction chs with
  | nil => intro h; simp [roots]
  | leafCons it p rest ih =>
    intro h
    rw [findInChannels] at h
    by_cases hid : it.id = cid
    · rw [if_pos hid] at h; cases h
    · rw [if_neg hid] at h
      simp [roots, hid, ih h]
  | teamCons it p e chs' rest ihc ihr =>
    intro h
    rw [findInChannels] at h
    by_cases hid : it.id = cid
    · rw [if_pos hid] at h; cases h
    · rw [if_neg hid] at h
      simp [roots, hid, ihr h]

/-- On a tree view state all of whose entries carry a `channels` array
    whose elements have a parent set, the `selectChannelById` loop does
    not throw, and it finds a channel exactly when some entry's channels
    contain the id. -/
theorem searchTreeViewState_spec (cid : List Nat) :
    ∀ F : StateForest,
      ((roots F).all fun it => it.channels.isSome) = true →
      ((roots F).all fun it =>
        (roots (it.channels.getD .nil)).all fun c => c.parent.isSome) = true →
      (viewHasChannelId F cid = false → searchTreeViewState F cid = Except.ok none) ∧
      (viewHasChannelId F cid = true →
        ∃ ch, searchTreeViewState F cid = Except.ok (some ch) ∧
          ch.item.id = cid ∧ ch.parent.isSome = true) := by
  intro F
  induction F with
  | nil =>
    intro h1 h2
    refine ⟨fun _ => rfl, fun hv => ?_⟩
    simp [viewHasChannelId, roots] at hv
  | leafCons it p rest ih =>
    intro h1 h2
    exfalso
    simp [roots] at h1
  | teamCons it p e chs rest ihc ihr =>
    intro h1 h2
    simp only [roots, List.all_cons, Bool.and_eq_true] at h1 h2
    obtain ⟨h1h, h1t⟩ := h1
    obtain ⟨h2h, h2t⟩ := h2
    cases hf : findInChannels chs cid with
    | some ch =>
      rcases findInChannels_some hf with ⟨hm, hi⟩
      have hpar : ch.parent.isSome = true := by
        have hall := List.all_eq_true.mp (by simpa using h2h) ch hm
        simpa using hall
      have hv : viewHasChannelId (StateForest.teamCons it p e chs rest) cid = true := by
        simp only [viewHasChannelId, roots, List.any_cons, Bool.or_eq_true]
        left
        simp only [Option.getD_some]
        exact List.any_eq_true.mpr ⟨ch, hm, by simp [hi]⟩
      constructor
      · intro hv0
        rw [hv] at hv0
        cases hv0
      · intro _
        refine ⟨ch, ?_, hi, hpar⟩
        rw [searchTreeViewState, hf]
    | none =>
      have hany := findInChannels_none hf
      have hview : viewHasChannelId (StateForest.teamCons it p e chs rest) cid =
          viewHasChannelId rest cid := by
        simp only [viewHasChannelId, roots, List.any_cons, Option.getD_some]
        rw [hany]
        simp [viewHasChannelId]
      have hsearch : searchTreeViewState (StateForest.teamCons it p e chs rest) cid =
          searchTreeViewState rest cid := by
        rw [searchTreeViewState, hf]
      rcases ihr h1t (by simpa using h2t) with ⟨ihf, iht⟩
      constructor
      · intro hv0
        rw [hview] at hv0
        rw [hsearch]
        exact ihf hv0
      · intro hv
        rw [hview] at hv
        rw [hsearch]
        exact iht hv

/-- Selecting a node whose parent is set always completes, and the final
    state records it as the selection (whether or not an event fired). -/
theorem selectChannel_some_ok (st : PickerState) (ch : ItemState) (p : GraphItem)
    (hp : ch.parent = some p) :
    ∃ st', (selectChannel st (some ch)).2 = Except.ok st' ∧
      st'.selectedItemState = some ch := by
  unfold selectChannel
  by_cases hne : st.selectedItemState ≠ some ch
  · rw [if_pos hne]
    simp only
    rw [hp]
    unfold selectChannelFinish
    simp only
    have hlf := (lostFocus_spec
      { st with selectedItemState := some ch, inputValue := [] }).2 ch p rfl hp
    refine ⟨_, hlf, ?_⟩
    rw [filterList_selectedItemState]
  · rw [if_neg hne]
    rw [not_ne_iff] at hne
    unfold selectChannelFinish
    simp only
    have hlf := (lostFocus_spec { st with inputValue := [] }).2 ch p (by simpa using hne) hp
    refine ⟨_, hlf, ?_⟩
    rw [filterList_selectedItemState]
    exact hne

/-- C1 amended: on a loaded state whose tree view entries all carry
    channels lists with parents set, `selectChannelById` completes and its
    result is exactly whether the CURRENT tree view state — the filtered
    presentation tree, not the full unfiltered source data — contains a
    channel with the id, selecting the found channel on success. -/
theorem claim1_amended_selectById_searches_view (st : PickerState) (cid : List Nat)
    (h1 : ((roots st.treeViewState).all fun it => it.channels.isSome) = true)
    (h2 : ((roots st.treeViewState).all fun it =>
        (roots (it.channels.getD .nil)).all fun c => c.parent.isSome) = true) :
    ∃ st', (selectChannelById st true cid).2 =
        Except.ok (st', viewHasChannelId st.treeViewState cid) ∧
      (viewHasChannelId st.treeViewState cid = true →
        ∃ ch, st'.selectedItemState = some ch ∧ ch.item.id = cid) := by
  have hs := searchTreeViewState_spec cid st.treeViewState h1 h2
  by_cases hv : viewHasChannelId st.treeViewState cid = true
  · rcases hs.2 hv with ⟨ch, hse, hid, hpar⟩
    cases hp : ch.parent with
    | none => rw [hp] at hpar; cases hpar
    | some p =>
      rcases selectChannel_some_ok st ch p hp with ⟨st', hok, hsel⟩
      refine ⟨st', ?_, fun _ => ⟨ch, hsel, hid⟩⟩
      unfold selectChannelById
      rw [if_pos rfl, hse]
      simp only
      rw [hok, hv]
      exact rfl
  · have hv0 : viewHasChannelId st.treeViewState cid = false :=
      Bool.eq_false_iff.mpr hv
    refine ⟨st, ?_, fun hvt => absurd hvt hv⟩
    unfold selectChannelById
    rw [if_pos rfl, hs.1 hv0, hv0]

/-- C1 amended witness: in the filtered example state the id `c2`
    (`Backend`) is still in the tree view, is found, and gets selected. -/
theorem claim1_amended_witness :
    ∃ st', (selectChannelById exStateFiltered true (jsStr (r"c2"))).2 =
        Except.ok (st', viewHasChannelId exStateFiltered.treeViewState (jsStr (r"c2"))) ∧
      (viewHasChannelId exStateFiltered.treeViewState (jsStr (r"c2")) = true →
        ∃ ch, st'.selectedItemState = some ch ∧ ch.item.id = jsStr (r"c2")) :=
  claim1_amended_selectById_searches_view exStateFiltered (jsStr (r"c2"))
    (by decide) (by decide)
